import Mathlib

/-!
Shallow embedding of `components/webext-storage/src/api.rs` — the
per-extension `storage.local`-style key/value area of application-services.

Modelling conventions, each justified against the Rust source:

* `serde_json::Value` becomes the inductive `Json`.  JSON numbers are
  modelled as integers (`Int`): no claim depends on float formatting, and
  floating point is outside the scope of the embedding.
* `serde_json::Map<String, Value>` becomes an association list
  `JsonMap := List (String × Json)`; `Map::remove`, `Map::insert` and
  `Map::len` become `jerase`, `jinsert` and `List.length`.  Every map the
  code builds has pairwise-distinct keys (serde maps cannot hold
  duplicates); lemmas that need this take it as a hypothesis.
* The SQL connection becomes `DB := String → Option Rec`, keyed by the
  extension guid.  The only consumer of the persisted text is
  `serde_json::from_str` inside `get_from_db`, so a stored string is
  abstracted by its parse outcome `Rec`: `malformed` (the bytes are not
  valid JSON, so `from_str` returns `Err` and the `?` in `get_from_db`
  propagates it), `nonObject j` (valid JSON that is not an object), or
  `obj m`.  `save_to_db` always writes `Value::Object(m).to_string()`,
  which parses back to the same object, hence it stores `Rec.obj m`.
* Rust's `Result` becomes `Except Err`; database I/O errors are out of
  scope (the spec says they propagate verbatim), so the only errors are
  the quota errors and the JSON parse error above.
* Stateful functions return `Except Err α × DB`: the second component is
  the connection after the call, which changes exactly where the Rust
  code executes an INSERT/DELETE statement.
* `v.to_string()` (compact serde_json serialization) becomes
  `jsonToString`, including serde's string-escaping rules, and
  `s.bytes().count()` becomes `byteLen` (UTF-8 byte count).
-/

/-- JSON values (`serde_json::Value`); numbers modelled as integers. -/
inductive Json where
  | null : Json
  | bool (b : Bool) : Json
  | num (n : Int) : Json
  | str (s : String) : Json
  | arr (xs : List Json) : Json
  | obj (m : List (String × Json)) : Json

/-- `type JsonMap = Map<String, JsonValue>`, as an association list. -/
abbrev JsonMap := List (String × Json)

/-- Number of bytes of the UTF-8 encoding of one scalar value. -/
def charBytes (c : Char) : Nat :=
  if c.toNat < 0x80 then 1
  else if c.toNat < 0x800 then 2
  else if c.toNat < 0x10000 then 3
  else 4

/-- UTF-8 byte count of a character list. -/
def bytesOfList : List Char → Nat
  | [] => 0
  | c :: cs => charBytes c + bytesOfList cs

/-- `s.bytes().count()` in Rust: the UTF-8 byte length of a string. -/
def byteLen (s : String) : Nat := bytesOfList s.data

/-- One lowercase hex digit, as serde_json emits in `\u00XX` escapes. -/
def hexDigit (n : Nat) : Char :=
  if n < 10 then Char.ofNat (48 + n) else Char.ofNat (87 + n)

/-- serde_json's escaping of one character inside a JSON string literal. -/
def escapeChar (c : Char) : List Char :=
  if c = '"' then ['\\', '"']
  else if c = '\\' then ['\\', '\\']
  else if c = Char.ofNat 0x08 then ['\\', 'b']
  else if c = Char.ofNat 0x09 then ['\\', 't']
  else if c = Char.ofNat 0x0a then ['\\', 'n']
  else if c = Char.ofNat 0x0c then ['\\', 'f']
  else if c = Char.ofNat 0x0d then ['\\', 'r']
  else if c.toNat < 0x20 then
    ['\\', 'u', '0', '0', hexDigit (c.toNat / 16), hexDigit (c.toNat % 16)]
  else [c]

/-- serde_json's escaping of a whole string (without surrounding quotes). -/
def escList : List Char → List Char
  | [] => []
  | c :: cs => escapeChar c ++ escList cs

/-- String-literal body of `s` as serde_json serializes it. -/
def escapeString (s : String) : String := String.mk (escList s.data)

mutual

/-- `val.to_string()`: compact serde_json serialization. -/
def jsonToString : Json → String
  | Json.null => "null"
  | Json.bool true => "true"
  | Json.bool false => "false"
  | Json.num n => toString n
  | Json.str s => "\"" ++ escapeString s ++ "\""
  | Json.arr xs => "[" ++ arrBody xs ++ "]"
  | Json.obj m => "\x7b" ++ objBody m ++ "\x7d"

/-- Comma-separated serialization of array elements. -/
def arrBody : List Json → String
  | [] => ""
  | [x] => jsonToString x
  | x :: y :: xs => jsonToString x ++ "," ++ arrBody (y :: xs)

/-- Comma-separated serialization of object entries. -/
def objBody : List (String × Json) → String
  | [] => ""
  | [(k, v)] => "\"" ++ escapeString k ++ "\":" ++ jsonToString v
  | (k, v) :: e :: m =>
    "\"" ++ escapeString k ++ "\":" ++ jsonToString v ++ "," ++ objBody (e :: m)

end

/-- One serialized object entry `"k":v`. -/
def objEntry (k : String) (v : Json) : String :=
  "\"" ++ escapeString k ++ "\":" ++ jsonToString v

/-- First value stored under key `k` (`Map::get` / the value `Map::remove`
returns). -/
def jlookup : JsonMap → String → Option Json
  | [], _ => none
  | (k', v) :: m, k => if k' = k then some v else jlookup m k

/-- The map after `Map::remove(&k)`: the first entry keyed `k` is gone. -/
def jerase : JsonMap → String → JsonMap
  | [], _ => []
  | (k', v) :: m, k => if k' = k then m else (k', v) :: jerase m k

/-- `Map::insert(k, v)`: replace the value in place if the key is present,
otherwise append the new entry. -/
def jinsert : JsonMap → String → Json → JsonMap
  | [], k, v => [(k, v)]
  | (k', v') :: m, k, v =>
    if k' = k then (k, v) :: m else (k', v') :: jinsert m k v

/-- The serialized size of a JSON value, in UTF-8 bytes. -/
def jsonSize (j : Json) : Nat := byteLen (jsonToString j)

/-- Size of a serialized object entry. -/
def entrySize (k : String) (v : Json) : Nat := byteLen (objEntry k v)

theorem data_append (s t : String) : (s ++ t).data = s.data ++ t.data := rfl

theorem bytesOfList_append (l₁ l₂ : List Char) :
    bytesOfList (l₁ ++ l₂) = bytesOfList l₁ + bytesOfList l₂ := by
  induction l₁ with
  | nil => simp [bytesOfList]
  | cons c cs ih => simp [bytesOfList, ih]; omega

theorem byteLen_append (s t : String) :
    byteLen (s ++ t) = byteLen s + byteLen t := by
  simp [byteLen, data_append, bytesOfList_append]

/-- `objBody` measured in bytes: the entry sizes plus one comma per gap. -/
theorem byteLen_objBody (m : List (String × Json)) :
    byteLen (objBody m) =
      (m.map fun e => entrySize e.1 e.2).sum + (m.length - 1) := by
  induction m with
  | nil => simp [objBody, byteLen, bytesOfList]
  | cons e m ih =>
    match m with
    | [] => simp [objBody, entrySize, objEntry, byteLen_append]
    | e' :: m' =>
      have : byteLen (objBody (e :: e' :: m')) =
          entrySize e.1 e.2 + 1 + byteLen (objBody (e' :: m')) := by
        show byteLen ("\"" ++ escapeString e.1 ++ "\":" ++ jsonToString e.2
            ++ "," ++ objBody (e' :: m')) = _
        simp [entrySize, objEntry, byteLen_append]
        have hc : byteLen "," = 1 := rfl
        omega
      rw [this, ih]
      simp [List.length]
      omega

/-- `QuotaReason` from `error.rs` (named by the quota that was exceeded). -/
inductive QuotaReason where
  | TotalBytes : QuotaReason
  | ItemBytes : QuotaReason
  | MaxItems : QuotaReason
  deriving DecidableEq

/-- The errors the storage API can produce within the modelled scope:
`ErrorKind::QuotaError(r)`, and the `serde_json` parse error that
`get_from_db` propagates via `?` when the stored bytes are not valid
JSON. -/
inductive Err where
  | quota (r : QuotaReason) : Err
  | parse : Err
  deriving DecidableEq

/-- Parse outcome of one persisted record's bytes (see the header comment:
only `serde_json::from_str` ever consumes them). -/
inductive Rec where
  | malformed : Rec
  | nonObject (j : Json) : Rec
  | obj (m : JsonMap) : Rec

/-- The `moz_extension_data` table: guid to stored record. -/
abbrev DB := String → Option Rec

/-- `QUOTA_BYTES` -/
def QUOTA_BYTES : Nat := 102400

/-- `QUOTA_BYTES_PER_ITEM` -/
def QUOTA_BYTES_PER_ITEM : Nat := 8192

/-- `MAX_ITEMS` -/
def MAX_ITEMS : Nat := 512

/-- `StorageValueChange` (camelCase-serialized with absent fields omitted;
we only model the data). -/
structure StorageValueChange where
  old_value : Option Json
  new_value : Option Json

/-- `StorageChanges = HashMap<String, StorageValueChange>`, modelled by its
key/value content as an association list.  Note the Rust type is a
`std::collections::HashMap`, whose iteration order is seeded at runtime;
only the content, not the order, of this list models the original. -/
abbrev StorageChanges := List (String × StorageValueChange)

/-- `HashMap::insert`: replace the value of an existing key, else add. -/
def chInsert (m : StorageChanges) (k : String) (c : StorageValueChange) :
    StorageChanges :=
  match m with
  | [] => [(k, c)]
  | (k', c') :: rest =>
    if k' = k then (k, c) :: rest else (k', c') :: chInsert rest k c

/-- `get_from_db`: load the record's bytes and parse them; `None` if no
row; `?`-propagate the parse error on invalid JSON; treat valid non-object
JSON as not existing. -/
def get_from_db (db : DB) (ext_guid : String) : Except Err (Option JsonMap) :=
  match db ext_guid with
  | none => Except.ok none
  | some Rec.malformed => Except.error Err.parse
  | some (Rec.nonObject _) => Except.ok none
  | some (Rec.obj m) => Except.ok (some m)

/-- `save_to_db`: serialize, enforce `QUOTA_BYTES`, then INSERT OR REPLACE.
The stored text is `val.to_string()`; in the `Rec` abstraction it parses
back to `val` itself (serde_json round-trip). -/
def save_to_db (db : DB) (ext_guid : String) (val : Json) :
    Except Err Unit × DB :=
  if byteLen (jsonToString val) > QUOTA_BYTES then
    (Except.error (Err.quota QuotaReason.TotalBytes), db)
  else
    (Except.ok (),
     fun g => if g = ext_guid then
        some (match val with
              | Json.obj m => Rec.obj m
              | j => Rec.nonObject j)
      else db g)

/-- `remove_from_db`: DELETE the record. -/
def remove_from_db (db : DB) (ext_guid : String) : DB :=
  fun g => if g = ext_guid then none else db g

/-- The per-key loop of `set`: remove the key from the working map
(capturing the old value), enforce `MAX_ITEMS` on the size after removal,
enforce `QUOTA_BYTES_PER_ITEM` on `len(key) + len(serialize(value))`,
insert, and record the change. -/
def setLoop : JsonMap → List (String × Json) → StorageChanges →
    Except Err (JsonMap × StorageChanges)
  | current, [], changes => Except.ok (current, changes)
  | current, (k, v) :: rest, changes =>
    let old_value := jlookup current k
    let current' := jerase current k
    if current'.length ≥ MAX_ITEMS then
      Except.error (Err.quota QuotaReason.MaxItems)
    else if byteLen k + byteLen (jsonToString v) ≥ QUOTA_BYTES_PER_ITEM then
      Except.error (Err.quota QuotaReason.ItemBytes)
    else
      setLoop (jinsert current' k v) rest
        (chInsert changes k ⟨old_value, some v⟩)

/-- The incoming map of `set`: an object's entries, anything else treated
as an empty map ("for now, pretend an empty map"). -/
def objMap (val : Json) : List (String × Json) :=
  match val with
  | Json.obj m => m
  | _ => []

/-- `set`: non-objects are treated as an empty map; load the current map
(empty if absent), run the per-key loop, then persist the merged map. -/
def setOp (db : DB) (ext_guid : String) (val : Json) :
    Except Err StorageChanges × DB :=
  let val_map := objMap val
  match get_from_db db ext_guid with
  | Except.error e => (Except.error e, db)
  | Except.ok maybe =>
    let current := maybe.getD []
    match setLoop current val_map [] with
    | Except.error e => (Except.error e, db)
    | Except.ok (current', changes) =>
      match save_to_db db ext_guid (Json.obj current') with
      | (Except.error e, db') => (Except.error e, db')
      | (Except.ok _, db') => (Except.ok changes, db')

/-- `get_keys`: normalize a key-specification value into (key, default)
pairs — a string, an array (non-strings silently dropped), or an object
whose property values are the defaults; anything else is empty. -/
def get_keys (keys : Json) : List (String × Option Json) :=
  match keys with
  | Json.str s => [(s, none)]
  | Json.arr ks =>
    ks.filterMap fun v =>
      match v with
      | Json.str s => some (s, none)
      | _ => none
  | Json.obj m => m.map fun kd => (kd.1, some kd.2)
  | _ => []

/-- The per-key loop of `get`: take the stored value if present (removing
it from the working copy, as `existing.remove(&key)` does), else the
supplied default if any, else skip the key. -/
def getLoop : JsonMap → List (String × Option Json) → JsonMap → JsonMap
  | _, [], result => result
  | existing, (key, maybe_default) :: rest, result =>
    match jlookup existing key with
    | some v => getLoop (jerase existing key) rest (jinsert result key v)
    | none =>
      match maybe_default with
      | some d => getLoop existing rest (jinsert result key d)
      | none => getLoop existing rest result

/-- `get`: absent record yields `{}`; a `null` key-spec yields the whole
stored object; otherwise the per-key loop over the expanded spec. -/
def getOp (db : DB) (ext_guid : String) (keys : Json) : Except Err Json :=
  match get_from_db db ext_guid with
  | Except.error e => Except.error e
  | Except.ok none => Except.ok (Json.obj [])
  | Except.ok (some existing) =>
    match keys with
    | Json.null => Except.ok (Json.obj existing)
    | _ =>
      Except.ok (Json.obj (getLoop existing (get_keys keys) []))

/-- The per-key loop of `remove`: drop each selected key that is present,
recording `{oldValue: removed, newValue: absent}`. -/
def removeLoop : JsonMap → List (String × Option Json) → StorageChanges →
    JsonMap × StorageChanges
  | existing, [], result => (existing, result)
  | existing, (key, _) :: rest, result =>
    match jlookup existing key with
    | some v =>
      removeLoop (jerase existing key) rest
        (chInsert result key ⟨some v, none⟩)
    | none => removeLoop existing rest result

/-- `remove`: absent record yields an empty change set with no write; if at
least one selected key was present, persist the shrunken map (possibly
empty — the record is written, not deleted). -/
def removeOp (db : DB) (ext_guid : String) (keys : Json) :
    Except Err StorageChanges × DB :=
  match get_from_db db ext_guid with
  | Except.error e => (Except.error e, db)
  | Except.ok none => (Except.ok [], db)
  | Except.ok (some existing) =>
    match removeLoop existing (get_keys keys) [] with
    | (existing', result) =>
      if result.isEmpty then (Except.ok result, db)
      else
        match save_to_db db ext_guid (Json.obj existing') with
        | (Except.error e, db') => (Except.error e, db')
        | (Except.ok _, db') => (Except.ok result, db')

/-- `clear`: absent record yields an empty change set; otherwise record a
removal change for every stored key and DELETE the record entirely. -/
def clearOp (db : DB) (ext_guid : String) : Except Err StorageChanges × DB :=
  match get_from_db db ext_guid with
  | Except.error e => (Except.error e, db)
  | Except.ok none => (Except.ok [], db)
  | Except.ok (some existing) =>
    let result := existing.foldl
      (fun r kv => chInsert r kv.1 ⟨some kv.2, none⟩) []
    (Except.ok result, remove_from_db db ext_guid)

/-! ### Association-list map lemmas -/

theorem jlookup_mem {m : JsonMap} {k : String} {v : Json}
    (h : jlookup m k = some v) : (k, v) ∈ m := by
  induction m with
  | nil => simp [jlookup] at h
  | cons e m ih =>
    obtain ⟨k', v'⟩ := e
    by_cases hk : k' = k
    · subst hk
      simp [jlookup] at h
      simp [h]
    · simp [jlookup, hk] at h
      exact List.mem_cons_of_mem _ (ih h)

theorem jerase_of_lookup_none {m : JsonMap} {k : String}
    (h : jlookup m k = none) : jerase m k = m := by
  induction m with
  | nil => rfl
  | cons e m ih =>
    obtain ⟨k', v'⟩ := e
    by_cases hk : k' = k
    · subst hk; simp [jlookup] at h
    · simp [jlookup, hk] at h
      simp [jerase, hk, ih h]

theorem length_jerase_of_lookup {m : JsonMap} {k : String} {v : Json}
    (h : jlookup m k = some v) : (jerase m k).length + 1 = m.length := by
  induction m with
  | nil => simp [jlookup] at h
  | cons e m ih =>
    obtain ⟨k', v'⟩ := e
    by_cases hk : k' = k
    · subst hk; simp [jerase]
    · simp [jlookup, hk] at h
      simp [jerase, hk, ih h]

theorem length_jerase_le (m : JsonMap) (k : String) :
    (jerase m k).length ≤ m.length := by
  induction m with
  | nil => simp [jerase]
  | cons e m ih =>
    obtain ⟨k', v'⟩ := e
    by_cases hk : k' = k
    · simp [jerase, hk]
    · simp [jerase, hk]
      exact ih

theorem mem_jerase {m : JsonMap} {k : String} {e : String × Json}
    (h : e ∈ jerase m k) : e ∈ m := by
  induction m with
  | nil => simp [jerase] at h
  | cons e' m ih =>
    obtain ⟨k', v'⟩ := e'
    by_cases hk : k' = k
    · simp [jerase, hk] at h
      exact List.mem_cons_of_mem _ h
    · simp [jerase, hk] at h
      rcases h with h | h
      · simp [h]
      · exact List.mem_cons_of_mem _ (ih h)

theorem mem_jinsert {m : JsonMap} {k : String} {v : Json} {e : String × Json}
    (h : e ∈ jinsert m k v) : e ∈ m ∨ e = (k, v) := by
  induction m with
  | nil => simp [jinsert] at h; simp [h]
  | cons e' m ih =>
    obtain ⟨k', v'⟩ := e'
    by_cases hk : k' = k
    · simp [jinsert, hk] at h
      rcases h with h | h
      · simp [h]
      · exact Or.inl (List.mem_cons_of_mem _ h)
    · simp [jinsert, hk] at h
      rcases h with h | h
      · exact Or.inl (by simp [h])
      · rcases ih h with h' | h'
        · exact Or.inl (List.mem_cons_of_mem _ h')
        · exact Or.inr h'

theorem length_jinsert_le (m : JsonMap) (k : String) (v : Json) :
    (jinsert m k v).length ≤ m.length + 1 := by
  induction m with
  | nil => simp [jinsert]
  | cons e m ih =>
    obtain ⟨k', v'⟩ := e
    by_cases hk : k' = k
    · simp [jinsert, hk]
    · simp [jinsert, hk]
      exact ih

theorem jlookup_jinsert_self (m : JsonMap) (k : String) (v : Json) :
    jlookup (jinsert m k v) k = some v := by
  induction m with
  | nil => simp [jinsert, jlookup]
  | cons e m ih =>
    obtain ⟨k', v'⟩ := e
    by_cases hk : k' = k
    · simp [jinsert, hk, jlookup]
    · simp [jinsert, hk, jlookup, ih]

theorem jlookup_jinsert_ne {k' k : String} (m : JsonMap) (v : Json)
    (h : k' ≠ k) : jlookup (jinsert m k v) k' = jlookup m k' := by
  induction m with
  | nil => simp [jinsert, jlookup, Ne.symm h]
  | cons e m ih =>
    obtain ⟨k₀, v₀⟩ := e
    by_cases hk : k₀ = k
    · simp [jinsert, hk, jlookup, Ne.symm h]
    · simp [jinsert, hk, jlookup, ih]

theorem jlookup_jerase_ne {k' k : String} (m : JsonMap)
    (h : k' ≠ k) : jlookup (jerase m k) k' = jlookup m k' := by
  induction m with
  | nil => simp [jerase]
  | cons e m ih =>
    obtain ⟨k₀, v₀⟩ := e
    by_cases hk : k₀ = k
    · simp [jerase, hk, jlookup, Ne.symm h]
    · simp [jerase, hk, jlookup, ih]

theorem jinsert_of_lookup_none {m : JsonMap} {k : String} (v : Json)
    (h : jlookup m k = none) : jinsert m k v = m ++ [(k, v)] := by
  induction m with
  | nil => rfl
  | cons e m ih =>
    obtain ⟨k', v'⟩ := e
    by_cases hk : k' = k
    · subst hk; simp [jlookup] at h
    · simp [jlookup, hk] at h
      simp [jinsert, hk, ih h]

theorem jlookup_eq_none_of_not_mem {m : JsonMap} {k : String}
    (h : k ∉ m.map Prod.fst) : jlookup m k = none := by
  induction m with
  | nil => rfl
  | cons e m ih =>
    obtain ⟨k', v'⟩ := e
    simp only [List.map_cons, List.mem_cons, not_or] at h
    simp [jlookup, Ne.symm h.1, ih h.2]

theorem jlookup_jerase_self_of_nodup {m : JsonMap} {k : String}
    (hn : (m.map Prod.fst).Nodup) : jlookup (jerase m k) k = none := by
  induction m with
  | nil => rfl
  | cons e m ih =>
    obtain ⟨k', v'⟩ := e
    simp only [List.map_cons, List.nodup_cons] at hn
    by_cases hk : k' = k
    · subst hk
      simp only [jerase, if_pos rfl]
      exact jlookup_eq_none_of_not_mem hn.1
    · simp [jerase, hk, jlookup, ih hn.2]

theorem jlookup_cons_self (k : String) (v : Json) (m : JsonMap) :
    jlookup ((k, v) :: m) k = some v := by simp [jlookup]

theorem jerase_cons_self (k : String) (v : Json) (m : JsonMap) :
    jerase ((k, v) :: m) k = m := by simp [jerase]

/-- Removing and re-inserting a present key permutes the entries. -/
theorem jinsert_jerase_perm {m : JsonMap} {k : String} {v : Json}
    (h : jlookup m k = some v) (hn : (m.map Prod.fst).Nodup) :
    List.Perm (jinsert (jerase m k) k v) m := by
  have hnone : jlookup (jerase m k) k = none := jlookup_jerase_self_of_nodup hn
  rw [jinsert_of_lookup_none v hnone]
  refine (List.perm_append_singleton _ _).trans ?_
  clear hnone
  induction m with
  | nil => simp [jlookup] at h
  | cons e m ih =>
    obtain ⟨k', v'⟩ := e
    simp only [List.map_cons, List.nodup_cons] at hn
    by_cases hk : k' = k
    · subst hk
      rw [jlookup_cons_self] at h
      injection h with h
      subst h
      rw [jerase_cons_self]
    · simp only [jlookup, if_neg hk] at h
      simp only [jerase, if_neg hk]
      exact (List.Perm.swap (k', v') (k, v) (jerase m k)).trans
        (List.Perm.cons _ (ih h hn.2))

/-! ### Serialized-size lemmas -/

theorem jsonSize_obj (m : JsonMap) :
    jsonSize (Json.obj m) = byteLen (objBody m) + 2 := by
  show byteLen ("\x7b" ++ objBody m ++ "\x7d") = _
  rw [byteLen_append, byteLen_append]
  have h1 : byteLen "\x7b" = 1 := rfl
  have h2 : byteLen "\x7d" = 1 := rfl
  omega

theorem sum_map_jerase_le (m : JsonMap) (k : String)
    (f : String × Json → Nat) :
    ((jerase m k).map f).sum ≤ (m.map f).sum := by
  induction m with
  | nil => simp [jerase]
  | cons e m ih =>
    obtain ⟨k', v'⟩ := e
    by_cases hk : k' = k
    · simp [jerase, hk]
    · simp [jerase, hk]
      omega

theorem byteLen_objBody_jerase_le (m : JsonMap) (k : String) :
    byteLen (objBody (jerase m k)) ≤ byteLen (objBody m) := by
  rw [byteLen_objBody, byteLen_objBody]
  have h1 := sum_map_jerase_le m k fun e => entrySize e.1 e.2
  have h2 := length_jerase_le m k
  omega

theorem jsonSize_obj_jerase_le (m : JsonMap) (k : String) :
    jsonSize (Json.obj (jerase m k)) ≤ jsonSize (Json.obj m) := by
  rw [jsonSize_obj, jsonSize_obj]
  have := byteLen_objBody_jerase_le m k
  omega

/-- Maps with permuted entries serialize to the same number of bytes. -/
theorem jsonSize_obj_perm {m₁ m₂ : JsonMap} (h : List.Perm m₁ m₂) :
    jsonSize (Json.obj m₁) = jsonSize (Json.obj m₂) := by
  rw [jsonSize_obj, jsonSize_obj, byteLen_objBody, byteLen_objBody,
    (h.map fun e => entrySize e.1 e.2).sum_eq, h.length_eq]

/-- A coarse but convenient total-size bound: if every entry serializes to
at most `b` bytes and there are at most `n` entries, the whole object
serializes to at most `n * b + n + 2` bytes. -/
theorem jsonSize_obj_le_of_entry_bound (m : JsonMap) (b n : Nat)
    (hb : ∀ e ∈ m, entrySize e.1 e.2 ≤ b) (hn : m.length ≤ n) :
    jsonSize (Json.obj m) ≤ n * b + n + 2 := by
  rw [jsonSize_obj, byteLen_objBody]
  have hsum : (m.map fun e => entrySize e.1 e.2).sum ≤ m.length * b := by
    have := List.sum_le_card_nsmul (m.map fun e => entrySize e.1 e.2) b
      (by intro x hx
          obtain ⟨e, he, rfl⟩ := List.mem_map.mp hx
          exact hb e he)
    simpa [smul_eq_mul] using this
  have : m.length * b ≤ n * b := Nat.mul_le_mul_right b hn
  omega

/-! ### Quota invariants and loop lemmas -/

/-- The per-item quantity the `set` loop checks:
`k.bytes().count() + v.to_string().bytes().count()`. -/
def itemSize (k : String) (v : Json) : Nat :=
  byteLen k + byteLen (jsonToString v)

/-- Per-item quota: strictly below `QUOTA_BYTES_PER_ITEM` bytes. -/
def itemOkP (e : String × Json) : Prop :=
  itemSize e.1 e.2 < QUOTA_BYTES_PER_ITEM

instance (e : String × Json) : Decidable (itemOkP e) := by
  unfold itemOkP
  infer_instance

/-- The §3 data-model invariants of one stored map: total serialized size,
per-item size, and item count. -/
def mapInv (m : JsonMap) : Prop :=
  jsonSize (Json.obj m) ≤ QUOTA_BYTES ∧
  (∀ e ∈ m, itemOkP e) ∧
  m.length ≤ MAX_ITEMS

/-- Every object record persisted in the store satisfies `mapInv`. -/
def dbInv (db : DB) : Prop :=
  ∀ g m, db g = some (Rec.obj m) → mapInv m

/-- The `set` loop keeps all entries within the per-item quota and the map
within the item-count quota. -/
theorem setLoop_inv {vm : List (String × Json)} :
    ∀ {current changes current' changes'},
    (∀ e ∈ current, itemOkP e) → current.length ≤ MAX_ITEMS →
    setLoop current vm changes = Except.ok (current', changes') →
    (∀ e ∈ current', itemOkP e) ∧ current'.length ≤ MAX_ITEMS := by
  induction vm with
  | nil =>
    intro c ch c' ch' h1 h2 h3
    simp [setLoop] at h3
    rw [← h3.1]
    exact ⟨h1, h2⟩
  | cons kv rest ih =>
    intro c ch c' ch' h1 h2 h3
    obtain ⟨k, v⟩ := kv
    rw [setLoop] at h3
    by_cases hg1 : (jerase c k).length ≥ MAX_ITEMS
    · rw [if_pos hg1] at h3
      exact absurd h3 (by simp)
    · rw [if_neg hg1] at h3
      by_cases hg2 : byteLen k + byteLen (jsonToString v) ≥ QUOTA_BYTES_PER_ITEM
      · rw [if_pos hg2] at h3
        exact absurd h3 (by simp)
      · rw [if_neg hg2] at h3
        refine ih ?_ ?_ h3
        · intro e he
          rcases mem_jinsert he with he' | he'
          · exact h1 e (mem_jerase he')
          · subst he'
            exact Nat.lt_of_not_le hg2
        · have := length_jinsert_le (jerase c k) k v
          have := Nat.lt_of_not_le hg1
          omega

/-- `setOp` on a guid whose record holds the object `m`, reduced past the
load step. -/
theorem setOp_obj {db : DB} {ext : String} {m : JsonMap}
    (h : db ext = some (Rec.obj m)) (v : Json) :
    setOp db ext v =
      match setLoop m (objMap v) [] with
      | Except.error e => (Except.error e, db)
      | Except.ok (cur', ch) =>
        match save_to_db db ext (Json.obj cur') with
        | (Except.error e, db') => (Except.error e, db')
        | (Except.ok _, db') => (Except.ok ch, db') := by
  have hg : get_from_db db ext = Except.ok (some m) := by
    unfold get_from_db
    rw [h]
  unfold setOp
  rw [hg]
  rfl

/-- `save_to_db` succeeds when the serialized object fits the total quota,
and then the record is replaced. -/
theorem save_to_db_ok {m : JsonMap} (db : DB) (ext : String)
    (h : jsonSize (Json.obj m) ≤ QUOTA_BYTES) :
    save_to_db db ext (Json.obj m) =
      (Except.ok (), fun g => if g = ext then some (Rec.obj m) else db g) := by
  have h' : ¬ byteLen (jsonToString (Json.obj m)) > QUOTA_BYTES :=
    Nat.not_lt.mpr h
  unfold save_to_db
  rw [if_neg h']

/-- `save_to_db` fails with `TotalBytes`, touching nothing, when the
serialized object exceeds the total quota. -/
theorem save_to_db_err {m : JsonMap} (db : DB) (ext : String)
    (h : QUOTA_BYTES < jsonSize (Json.obj m)) :
    save_to_db db ext (Json.obj m) =
      (Except.error (Err.quota QuotaReason.TotalBytes), db) := by
  have h' : byteLen (jsonToString (Json.obj m)) > QUOTA_BYTES := h
  unfold save_to_db
  rw [if_pos h']

/-- `setOp` past the load step when no record exists: the working map
starts empty. -/
theorem setOp_none {db : DB} {ext : String}
    (h : db ext = none) (v : Json) :
    setOp db ext v =
      match setLoop [] (objMap v) [] with
      | Except.error e => (Except.error e, db)
      | Except.ok (cur', ch) =>
        match save_to_db db ext (Json.obj cur') with
        | (Except.error e, db') => (Except.error e, db')
        | (Except.ok _, db') => (Except.ok ch, db') := by
  have hg : get_from_db db ext = Except.ok none := by
    unfold get_from_db
    rw [h]
  unfold setOp
  rw [hg]
  rfl

/-- `setOp` past the load step when the record parses to a non-object: the
working map starts empty, exactly as if no record existed. -/
theorem setOp_nonObject {db : DB} {ext : String} {j : Json}
    (h : db ext = some (Rec.nonObject j)) (v : Json) :
    setOp db ext v =
      match setLoop [] (objMap v) [] with
      | Except.error e => (Except.error e, db)
      | Except.ok (cur', ch) =>
        match save_to_db db ext (Json.obj cur') with
        | (Except.error e, db') => (Except.error e, db')
        | (Except.ok _, db') => (Except.ok ch, db') := by
  have hg : get_from_db db ext = Except.ok none := by
    unfold get_from_db
    rw [h]
  unfold setOp
  rw [hg]
  rfl

/-- `setOp` when the stored bytes are not valid JSON: the parse error
propagates and nothing is written. -/
theorem setOp_malformed {db : DB} {ext : String}
    (h : db ext = some Rec.malformed) (v : Json) :
    setOp db ext v = (Except.error Err.parse, db) := by
  have hg : get_from_db db ext = Except.error Err.parse := by
    unfold get_from_db
    rw [h]
  unfold setOp
  rw [hg]

/-- `removeOp` past the load step on an object record. -/
theorem removeOp_obj {db : DB} {ext : String} {m : JsonMap}
    (h : db ext = some (Rec.obj m)) (ks : Json) :
    removeOp db ext ks =
      match removeLoop m (get_keys ks) [] with
      | (existing', result) =>
        if result.isEmpty then (Except.ok result, db)
        else
          match save_to_db db ext (Json.obj existing') with
          | (Except.error e, db') => (Except.error e, db')
          | (Except.ok _, db') => (Except.ok result, db') := by
  have hg : get_from_db db ext = Except.ok (some m) := by
    unfold get_from_db
    rw [h]
  unfold removeOp
  rw [hg]


/-- `removeOp` when no record exists: an empty change set, no store
access. -/
theorem removeOp_none {db : DB} {ext : String}
    (h : db ext = none) (ks : Json) :
    removeOp db ext ks = (Except.ok [], db) := by
  have hg : get_from_db db ext = Except.ok none := by
    unfold get_from_db
    rw [h]
  unfold removeOp
  rw [hg]

/-- `removeOp` when the record parses to a non-object: treated as no
record. -/
theorem removeOp_nonObject {db : DB} {ext : String} {j : Json}
    (h : db ext = some (Rec.nonObject j)) (ks : Json) :
    removeOp db ext ks = (Except.ok [], db) := by
  have hg : get_from_db db ext = Except.ok none := by
    unfold get_from_db
    rw [h]
  unfold removeOp
  rw [hg]

/-- `removeOp` when the stored bytes are not valid JSON: the parse error
propagates. -/
theorem removeOp_malformed {db : DB} {ext : String}
    (h : db ext = some Rec.malformed) (ks : Json) :
    removeOp db ext ks = (Except.error Err.parse, db) := by
  have hg : get_from_db db ext = Except.error Err.parse := by
    unfold get_from_db
    rw [h]
  unfold removeOp
  rw [hg]

/-- `clearOp` on an object record: one removal change per stored entry,
then the record is deleted. -/
theorem clearOp_obj {db : DB} {ext : String} {m : JsonMap}
    (h : db ext = some (Rec.obj m)) :
    clearOp db ext =
      (Except.ok (m.foldl (fun r kv => chInsert r kv.1 ⟨some kv.2, none⟩) []),
       remove_from_db db ext) := by
  have hg : get_from_db db ext = Except.ok (some m) := by
    unfold get_from_db
    rw [h]
  unfold clearOp
  rw [hg]

/-- `clearOp` when no record exists. -/
theorem clearOp_none {db : DB} {ext : String} (h : db ext = none) :
    clearOp db ext = (Except.ok [], db) := by
  have hg : get_from_db db ext = Except.ok none := by
    unfold get_from_db
    rw [h]
  unfold clearOp
  rw [hg]

/-- `clearOp` when the record parses to a non-object. -/
theorem clearOp_nonObject {db : DB} {ext : String} {j : Json}
    (h : db ext = some (Rec.nonObject j)) :
    clearOp db ext = (Except.ok [], db) := by
  have hg : get_from_db db ext = Except.ok none := by
    unfold get_from_db
    rw [h]
  unfold clearOp
  rw [hg]

/-- `clearOp` when the stored bytes are not valid JSON. -/
theorem clearOp_malformed {db : DB} {ext : String}
    (h : db ext = some Rec.malformed) :
    clearOp db ext = (Except.error Err.parse, db) := by
  have hg : get_from_db db ext = Except.error Err.parse := by
    unfold get_from_db
    rw [h]
  unfold clearOp
  rw [hg]

/-- `getOp` on an object record: the whole object for the null spec. -/
theorem getOp_obj_null {db : DB} {ext : String} {m : JsonMap}
    (h : db ext = some (Rec.obj m)) :
    getOp db ext Json.null = Except.ok (Json.obj m) := by
  have hg : get_from_db db ext = Except.ok (some m) := by
    unfold get_from_db
    rw [h]
  unfold getOp
  rw [hg]

/-- `getOp` when no record exists: always the empty object. -/
theorem getOp_none {db : DB} {ext : String}
    (h : db ext = none) (ks : Json) :
    getOp db ext ks = Except.ok (Json.obj []) := by
  have hg : get_from_db db ext = Except.ok none := by
    unfold get_from_db
    rw [h]
  unfold getOp
  rw [hg]

/-- `getOp` when the record parses to a non-object: treated as no
record. -/
theorem getOp_nonObject {db : DB} {ext : String} {j : Json}
    (h : db ext = some (Rec.nonObject j)) (ks : Json) :
    getOp db ext ks = Except.ok (Json.obj []) := by
  have hg : get_from_db db ext = Except.ok none := by
    unfold get_from_db
    rw [h]
  unfold getOp
  rw [hg]

/-- `getOp` when the stored bytes are not valid JSON: the parse error
propagates. -/
theorem getOp_malformed {db : DB} {ext : String}
    (h : db ext = some Rec.malformed) (ks : Json) :
    getOp db ext ks = Except.error Err.parse := by
  have hg : get_from_db db ext = Except.error Err.parse := by
    unfold get_from_db
    rw [h]
  unfold getOp
  rw [hg]

/-- Whether a key spec is the null sentinel (`keys == &JsonValue::Null`). -/
def isNull : Json → Bool
  | Json.null => true
  | _ => false

/-- `getOp` on an object record and a non-null spec: the per-key loop over
the expanded spec. -/
theorem getOp_obj_notNull {db : DB} {ext : String} {m : JsonMap} {ks : Json}
    (h : db ext = some (Rec.obj m)) (hks : isNull ks = false) :
    getOp db ext ks = Except.ok (Json.obj (getLoop m (get_keys ks) [])) := by
  have hg : get_from_db db ext = Except.ok (some m) := by
    unfold get_from_db
    rw [h]
  cases ks with
  | null => simp [isNull] at hks
  | bool b =>
    unfold getOp
    rw [hg]
  | num n =>
    unfold getOp
    rw [hg]
  | str s =>
    unfold getOp
    rw [hg]
  | arr xs =>
    unfold getOp
    rw [hg]
  | obj o =>
    unfold getOp
    rw [hg]

/-- The `remove` loop only ever shrinks the working map. -/
theorem removeLoop_size_le (kd : List (String × Option Json)) :
    ∀ (m : JsonMap) (r : StorageChanges),
    jsonSize (Json.obj (removeLoop m kd r).1) ≤ jsonSize (Json.obj m) := by
  induction kd with
  | nil =>
    intro m r
    simp [removeLoop]
  | cons p rest ih =>
    intro m r
    obtain ⟨key, d⟩ := p
    rw [removeLoop]
    cases hl : jlookup m key with
    | some v =>
      exact (ih (jerase m key) _).trans (jsonSize_obj_jerase_le m key)
    | none =>
      exact ih m r

/-- The `remove` loop keeps only entries of the original map. -/
theorem removeLoop_subset (kd : List (String × Option Json)) :
    ∀ (m : JsonMap) (r : StorageChanges) (e : String × Json),
    e ∈ (removeLoop m kd r).1 → e ∈ m := by
  induction kd with
  | nil =>
    intro m r e he
    simpa [removeLoop] using he
  | cons p rest ih =>
    intro m r e he
    obtain ⟨key, d⟩ := p
    rw [removeLoop] at he
    cases hl : jlookup m key with
    | some v =>
      rw [hl] at he
      exact mem_jerase (ih (jerase m key) _ e he)
    | none =>
      rw [hl] at he
      exact ih m r e he

/-- The `remove` loop never grows the working map. -/
theorem removeLoop_length_le (kd : List (String × Option Json)) :
    ∀ (m : JsonMap) (r : StorageChanges),
    (removeLoop m kd r).1.length ≤ m.length := by
  induction kd with
  | nil =>
    intro m r
    simp [removeLoop]
  | cons p rest ih =>
    intro m r
    obtain ⟨key, d⟩ := p
    rw [removeLoop]
    cases hl : jlookup m key with
    | some v =>
      exact (ih (jerase m key) _).trans (length_jerase_le m key)
    | none =>
      exact ih m r

/-- Whether `save_to_db` succeeds depends only on the value, not on the
connection contents. -/
theorem save_to_db_fst_indep (db₁ db₂ : DB) (ext₁ ext₂ : String) (val : Json) :
    (save_to_db db₁ ext₁ val).1 = (save_to_db db₂ ext₂ val).1 := by
  unfold save_to_db
  split
  · rfl
  · rfl

/-! ### Concrete stores used by witnesses and counterexamples -/

set_option maxRecDepth 4000

/-- A store with no records at all. -/
def dbEmpty : DB := fun _ => none

/-- A store whose record for `"ext-a"` holds bytes that are not valid
JSON. -/
def dbBad : DB := fun g => if g = "ext-a" then some Rec.malformed else none

/-- A store whose record for `"ext-a"` holds valid JSON that is not an
object. -/
def dbNonObj : DB :=
  fun g => if g = "ext-a" then some (Rec.nonObject (Json.str "zzz")) else none

/-- A 512-entry stored map: keys `"0"` … `"511"`, all with value `0`. -/
def m512 : JsonMap := (List.range 512).map fun i => (Nat.repr i, Json.num 0)

/-- A store whose record for `"ext-a"` holds `m512`. -/
def db512 : DB := fun g => if g = "ext-a" then some (Rec.obj m512) else none

/-- A one-entry stored map. -/
def mOne : JsonMap := [("k", Json.str "v")]

/-- A store whose record for `"ext-a"` holds `mOne`. -/
def dbOne : DB := fun g => if g = "ext-a" then some (Rec.obj mOne) else none

/-! ### C1 -/

/-- C1 counterexample: the claim says a record whose bytes are not valid
JSON is treated as absent and "never surfaces the malformation as an
error to the caller"; but on the store `dbBad`, whose record for
`"ext-a"` holds bytes that do not parse as JSON, `get` returns the parse
error. -/
theorem C1_counterexample :
    getOp dbBad "ext-a" Json.null = Except.error Err.parse := rfl

/-- C1 (amended): a stored record holding valid JSON that is not a JSON
object is treated by every operation (get, set, remove, clear) as an
absent record — no data, no error; only bytes that are not valid JSON at
all surface an error (`C1_counterexample`). -/
theorem C1_nonObject_record_treated_as_absent (db : DB) (ext : String)
    (j : Json) (h : db ext = some (Rec.nonObject j)) :
    get_from_db db ext = Except.ok none ∧
    (∀ ks, getOp db ext ks = getOp (remove_from_db db ext) ext ks) ∧
    (∀ v, (setOp db ext v).1 = (setOp (remove_from_db db ext) ext v).1) ∧
    (∀ ks, removeOp db ext ks = (Except.ok [], db)) ∧
    clearOp db ext = (Except.ok [], db) := by
  have herased : remove_from_db db ext ext = none := by
    unfold remove_from_db
    simp
  refine ⟨?_, ?_, ?_, ?_, ?_⟩
  · unfold get_from_db
    rw [h]
  · intro ks
    rw [getOp_nonObject h ks, getOp_none herased ks]
  · intro v
    rw [setOp_nonObject h v, setOp_none herased v]
    cases hl : setLoop [] (objMap v) [] with
    | error e => rfl
    | ok p =>
      obtain ⟨cur', ch⟩ := p
      dsimp only
      have hfst := save_to_db_fst_indep db (remove_from_db db ext) ext ext
        (Json.obj cur')
      cases hs₁ : save_to_db db ext (Json.obj cur') with
      | mk r₁ db₁ =>
        cases hs₂ : save_to_db (remove_from_db db ext) ext (Json.obj cur') with
        | mk r₂ db₂ =>
          rw [hs₁, hs₂] at hfst
          cases r₁ with
          | error e₁ =>
            cases r₂ with
            | error e₂ =>
              simp at hfst
              simp [hfst]
            | ok u => exact absurd hfst (by simp)
          | ok u =>
            cases r₂ with
            | error e₂ => exact absurd hfst (by simp)
            | ok u₂ => rfl
  · intro ks
    exact removeOp_nonObject h ks
  · exact clearOp_nonObject h

/-- C1 amended-claim witness: on the concrete store `dbNonObj` (a
non-object JSON record), `get` with the null spec behaves exactly as on
the store with that record deleted, and `clear` reports no changes and
leaves the store untouched. -/
theorem C1_witness :
    getOp dbNonObj "ext-a" Json.null
      = getOp (remove_from_db dbNonObj "ext-a") "ext-a" Json.null ∧
    clearOp dbNonObj "ext-a" = (Except.ok [], dbNonObj) := by
  have h := C1_nonObject_record_treated_as_absent dbNonObj "ext-a"
    (Json.str "zzz") rfl
  exact ⟨h.2.1 Json.null, h.2.2.2.2⟩

/-! ### C2 -/

/-- C2: whenever `set` fails with a quota error (MaxItems, ItemBytes or
TotalBytes), the connection is exactly as before the call — nothing was
persisted, for this extension id or any other. -/
theorem C2_set_quota_failure_persists_nothing (db : DB) (ext : String)
    (v : Json) (r : QuotaReason)
    (h : (setOp db ext v).1 = Except.error (Err.quota r)) :
    (setOp db ext v).2 = db := by
  unfold setOp at h ⊢
  cases hg : get_from_db db ext with
  | error e =>
    simp only [hg]
  | ok maybe =>
    simp only [hg] at h ⊢
    cases hl : setLoop (maybe.getD []) (objMap v) [] with
    | error e =>
      simp only [hl]
    | ok p =>
      obtain ⟨cur', ch⟩ := p
      simp only [hl] at h ⊢
      by_cases hq : QUOTA_BYTES < jsonSize (Json.obj cur')
      · rw [save_to_db_err db ext hq]
      · have hq' : jsonSize (Json.obj cur') ≤ QUOTA_BYTES := Nat.not_lt.mp hq
        rw [save_to_db_ok db ext hq'] at h
        exact absurd h (by simp)

/-- C2 witness: on the concrete 512-entry store `db512`, setting a fresh
513th key fails with the MaxItems quota error, and the store is exactly
as before. -/
theorem C2_witness :
    (setOp db512 "ext-a" (Json.obj [("fresh", Json.null)])).1
      = Except.error (Err.quota QuotaReason.MaxItems) ∧
    (setOp db512 "ext-a" (Json.obj [("fresh", Json.null)])).2 = db512 := by
  constructor
  · rfl
  · exact C2_set_quota_failure_persists_nothing db512 "ext-a"
      (Json.obj [("fresh", Json.null)]) QuotaReason.MaxItems rfl

/-! ### C3 -/

/-- C3: on a store holding exactly 512 keys, `set` of a single key that
already exists passes the MaxItems check — it succeeds whenever the
per-item and total-byte quotas allow, because the item count is taken
after removing the incoming key — while `set` of a fresh 513th key fails
with `QuotaExceeded(MaxItems)`. -/
theorem C3_max_items_boundary (db : DB) (ext : String) (m : JsonMap)
    (hrec : db ext = some (Rec.obj m)) (hlen : m.length = MAX_ITEMS) :
    (∀ k v v₀, jlookup m k = some v₀ →
      itemSize k v < QUOTA_BYTES_PER_ITEM →
      jsonSize (Json.obj (jinsert (jerase m k) k v)) ≤ QUOTA_BYTES →
      ∃ cs, (setOp db ext (Json.obj [(k, v)])).1 = Except.ok cs) ∧
    (∀ k v, jlookup m k = none →
      (setOp db ext (Json.obj [(k, v)])).1
        = Except.error (Err.quota QuotaReason.MaxItems)) := by
  constructor
  · intro k v v₀ hk hitem htot
    have hg1 : ¬ (jerase m k).length ≥ MAX_ITEMS := by
      have := length_jerase_of_lookup hk
      omega
    have hg2 : ¬ byteLen k + byteLen (jsonToString v) ≥ QUOTA_BYTES_PER_ITEM :=
      Nat.not_le.mpr hitem
    have hloop : setLoop m [(k, v)] []
        = Except.ok (jinsert (jerase m k) k v,
            chInsert [] k ⟨jlookup m k, some v⟩) := by
      rw [setLoop]
      rw [if_neg hg1, if_neg hg2]
      rw [setLoop]
    rw [setOp_obj hrec]
    have hobj : objMap (Json.obj [(k, v)]) = [(k, v)] := rfl
    rw [hobj, hloop]
    dsimp only
    rw [save_to_db_ok db ext htot]
    exact ⟨_, rfl⟩
  · intro k v hk
    have he : jerase m k = m := jerase_of_lookup_none hk
    have hg1 : (jerase m k).length ≥ MAX_ITEMS := by
      rw [he, hlen]
    rw [setOp_obj hrec]
    have hobj : objMap (Json.obj [(k, v)]) = [(k, v)] := rfl
    rw [hobj]
    rw [setLoop]
    rw [if_pos hg1]

/-- C3 witness: on the concrete 512-entry store `db512`, re-assigning the
existing key `"100"` succeeds, and adding the fresh key `"fresh"` fails
with MaxItems. -/
theorem C3_witness :
    (∃ cs, (setOp db512 "ext-a" (Json.obj [("100", Json.num 1)])).1
      = Except.ok cs) ∧
    (setOp db512 "ext-a" (Json.obj [("fresh", Json.null)])).1
      = Except.error (Err.quota QuotaReason.MaxItems) := by
  have h := C3_max_items_boundary db512 "ext-a" m512 rfl rfl
  constructor
  · refine h.1 "100" (Json.num 1) (Json.num 0) rfl (by decide) ?_
    have hb : ∀ e ∈ jinsert (jerase m512 "100") "100" (Json.num 1),
        entrySize e.1 e.2 ≤ 9 := by decide
    have hl : (jinsert (jerase m512 "100") "100" (Json.num 1)).length ≤ 512 :=
      by decide
    have := jsonSize_obj_le_of_entry_bound _ 9 512 hb hl
    have hle : 512 * 9 + 512 + 2 ≤ QUOTA_BYTES := by decide
    omega
  · exact h.2 "fresh" Json.null rfl

/-! ### C4 -/

/-- C4: a single-pair `set` (on a store with fewer than 512 items, so the
item-count check cannot interfere) fails with `QuotaExceeded(ItemBytes)`
exactly when the UTF-8 length of the key plus the UTF-8 length of the
JSON-serialized value reaches 8,192 bytes; in particular 8,191 bytes
passes the per-item check and 8,192 fails it. -/
theorem C4_item_bytes_iff (db : DB) (ext : String) (m : JsonMap)
    (k : String) (v : Json)
    (hrec : db ext = some (Rec.obj m)) (hlen : m.length < MAX_ITEMS) :
    (setOp db ext (Json.obj [(k, v)])).1
        = Except.error (Err.quota QuotaReason.ItemBytes)
      ↔ QUOTA_BYTES_PER_ITEM ≤ itemSize k v := by
  have hg1 : ¬ (jerase m k).length ≥ MAX_ITEMS := by
    have := length_jerase_le m k
    omega
  rw [setOp_obj hrec]
  have hobj : objMap (Json.obj [(k, v)]) = [(k, v)] := rfl
  rw [hobj]
  rw [setLoop]
  rw [if_neg hg1]
  by_cases hib : byteLen k + byteLen (jsonToString v) ≥ QUOTA_BYTES_PER_ITEM
  · rw [if_pos hib]
    simp only [itemSize]
    constructor
    · intro _
      exact hib
    · intro _
      trivial
  · rw [if_neg hib]
    rw [setLoop]
    dsimp only
    constructor
    · intro h
      by_cases hq : QUOTA_BYTES < jsonSize (Json.obj (jinsert (jerase m k) k v))
      · rw [save_to_db_err db ext hq] at h
        exact absurd h (by simp)
      · rw [save_to_db_ok db ext (Nat.not_lt.mp hq)] at h
        exact absurd h (by simp)
    · intro h
      exact absurd h (by simpa [itemSize] using hib)

/-- C4 witness: on the concrete one-entry store `dbOne`, the pair
`("b", "hi")` is far below the per-item quota, so `set` does not fail
with ItemBytes. -/
theorem C4_witness :
    (setOp dbOne "ext-a" (Json.obj [("b", Json.str "hi")])).1
      ≠ Except.error (Err.quota QuotaReason.ItemBytes) := by
  intro h
  have := (C4_item_bytes_iff dbOne "ext-a" mOne "b" (Json.str "hi")
    rfl (by decide)).mp h
  exact absurd this (by decide)

/-! ### C7 -/

/-- C7: re-assigning a stored key its identical current value succeeds and
returns a non-empty change set whose entry for the key has
`oldValue = newValue = v` — the self-assignment is not optimized away. -/
theorem C7_self_assignment_not_optimized (db : DB) (ext : String)
    (m : JsonMap) (k : String) (v : Json)
    (hrec : db ext = some (Rec.obj m)) (hn : (m.map Prod.fst).Nodup)
    (hinv : mapInv m) (hk : jlookup m k = some v) :
    (setOp db ext (Json.obj [(k, v)])).1
      = Except.ok [(k, ⟨some v, some v⟩)] := by
  obtain ⟨htot, hitems, hcount⟩ := hinv
  have hg1 : ¬ (jerase m k).length ≥ MAX_ITEMS := by
    have := length_jerase_of_lookup hk
    omega
  have hg2 : ¬ byteLen k + byteLen (jsonToString v) ≥ QUOTA_BYTES_PER_ITEM :=
    Nat.not_le.mpr (hitems (k, v) (jlookup_mem hk))
  have hloop : setLoop m [(k, v)] []
      = Except.ok (jinsert (jerase m k) k v,
          chInsert [] k ⟨jlookup m k, some v⟩) := by
    rw [setLoop]
    rw [if_neg hg1, if_neg hg2]
    rw [setLoop]
  have hsize : jsonSize (Json.obj (jinsert (jerase m k) k v)) ≤ QUOTA_BYTES := by
    rw [jsonSize_obj_perm (jinsert_jerase_perm hk hn)]
    exact htot
  rw [setOp_obj hrec]
  have hobj : objMap (Json.obj [(k, v)]) = [(k, v)] := rfl
  rw [hobj, hloop]
  dsimp only
  rw [save_to_db_ok db ext hsize]
  rw [hk]
  rfl

/-- C7 witness: on the concrete store `dbOne`, re-setting `"k"` to its
stored value `"v"` yields the change set `{k: {old: "v", new: "v"}}`. -/
theorem C7_witness :
    (setOp dbOne "ext-a" (Json.obj [("k", Json.str "v")])).1
      = Except.ok [("k", ⟨some (Json.str "v"), some (Json.str "v")⟩)] := by
  refine C7_self_assignment_not_optimized dbOne "ext-a" mOne "k"
    (Json.str "v") rfl (by decide) ⟨?_, ?_, ?_⟩ rfl
  · decide
  · decide
  · decide

/-! ### C9 -/

/-- Whether a JSON value is an object. -/
def isObj : Json → Bool
  | Json.obj _ => true
  | _ => false

/-- The working map an operation starts from: the stored object, or empty
when there is no parseable object record. -/
def storedMap (db : DB) (ext : String) : JsonMap :=
  match db ext with
  | some (Rec.obj m) => m
  | _ => []

theorem objMap_eq_nil_of_not_obj {v : Json} (h : isObj v = false) :
    objMap v = [] := by
  cases v <;> first | rfl | simp [isObj] at h

/-- C9 counterexample: the claim says a `set` with a non-object value
leaves the persisted state unchanged; but on the empty store, `set` with
the string `"s"` succeeds with an empty change set and *creates* an
empty-object record where none existed. -/
theorem C9_counterexample :
    (setOp dbEmpty "ext-a" (Json.str "s")).1 = Except.ok [] ∧
    dbEmpty "ext-a" = none ∧
    (setOp dbEmpty "ext-a" (Json.str "s")).2 "ext-a" = some (Rec.obj []) :=
  ⟨rfl, rfl, rfl⟩

/-- C9 (amended): `set` with a non-object value succeeds with an empty
change set and re-persists the loaded map unchanged — the stored map
contents are preserved, but the write is real: where no parseable object
record existed an empty-object record is written
(`C9_counterexample`). -/
theorem C9_non_object_set_preserves_map (db : DB) (ext : String) (v : Json)
    (hv : isObj v = false) (hm : db ext ≠ some Rec.malformed)
    (hq : ∀ m, db ext = some (Rec.obj m) →
      jsonSize (Json.obj m) ≤ QUOTA_BYTES) :
    (setOp db ext v).1 = Except.ok [] ∧
    (setOp db ext v).2 ext = some (Rec.obj (storedMap db ext)) ∧
    (∀ g, g ≠ ext → (setOp db ext v).2 g = db g) := by
  have hvm : objMap v = [] := objMap_eq_nil_of_not_obj hv
  cases hrec : db ext with
  | none =>
    rw [setOp_none hrec v, hvm]
    rw [setLoop]
    dsimp only
    rw [save_to_db_ok db ext (m := []) (by decide)]
    refine ⟨rfl, ?_, ?_⟩
    · simp [storedMap, hrec]
    · intro g hg
      simp [hg]
  | some r =>
    cases r with
    | malformed => exact absurd hrec hm
    | nonObject j =>
      rw [setOp_nonObject hrec v, hvm]
      rw [setLoop]
      dsimp only
      rw [save_to_db_ok db ext (m := []) (by decide)]
      refine ⟨rfl, ?_, ?_⟩
      · simp [storedMap, hrec]
      · intro g hg
        simp [hg]
    | obj m =>
      rw [setOp_obj hrec v, hvm]
      rw [setLoop]
      dsimp only
      rw [save_to_db_ok db ext (hq m hrec)]
      refine ⟨rfl, ?_, ?_⟩
      · simp [storedMap, hrec]
      · intro g hg
        simp [hg]

/-- C9 amended-claim witness: on the concrete store `dbOne`, `set` with
the number `3` succeeds with no changes and re-persists the stored map
unchanged. -/
theorem C9_witness :
    (setOp dbOne "ext-a" (Json.num 3)).1 = Except.ok [] ∧
    (setOp dbOne "ext-a" (Json.num 3)).2 "ext-a"
      = some (Rec.obj (storedMap dbOne "ext-a")) := by
  have h := C9_non_object_set_preserves_map dbOne "ext-a" (Json.num 3) rfl
    (fun h => Rec.noConfusion (Option.some.inj h))
    (by
      intro m hm
      cases Rec.obj.inj (Option.some.inj hm)
      decide)
  exact ⟨h.1, h.2.1⟩

/-! ### C10 -/

/-- C10: `remove` never fails with a quota error of any reason, provided
the stored record (if it is an object record) fits the total-byte quota:
removing keys only shrinks the serialized map, so the TotalBytes check on
the save path cannot fire, and `remove` performs no per-item or
item-count checks. -/
theorem C10_remove_never_quota_error (db : DB) (ext : String) (ks : Json)
    (hq : ∀ m, db ext = some (Rec.obj m) →
      jsonSize (Json.obj m) ≤ QUOTA_BYTES) :
    ∀ r, (removeOp db ext ks).1 ≠ Except.error (Err.quota r) := by
  intro r
  cases hrec : db ext with
  | none =>
    rw [removeOp_none hrec]
    simp
  | some rc =>
    cases rc with
    | malformed =>
      rw [removeOp_malformed hrec]
      simp
    | nonObject j =>
      rw [removeOp_nonObject hrec]
      simp
    | obj m =>
      rw [removeOp_obj hrec]
      cases hrl : removeLoop m (get_keys ks) [] with
      | mk ex' res =>
        dsimp only
        by_cases hres : res.isEmpty
        · rw [if_pos hres]
          simp
        · rw [if_neg hres]
          have hsz : jsonSize (Json.obj ex') ≤ QUOTA_BYTES := by
            have hmono := removeLoop_size_le (get_keys ks) m []
            rw [hrl] at hmono
            exact hmono.trans (hq m hrec)
          rw [save_to_db_ok db ext hsz]
          simp

/-- C10 witness: on the concrete store `dbOne`, removing `"k"` does not
fail with TotalBytes (nor any other quota reason). -/
theorem C10_witness :
    (removeOp dbOne "ext-a" (Json.str "k")).1
      ≠ Except.error (Err.quota QuotaReason.TotalBytes) :=
  C10_remove_never_quota_error dbOne "ext-a" (Json.str "k")
    (by
      intro m hm
      cases Rec.obj.inj (Option.some.inj hm)
      decide)
    QuotaReason.TotalBytes

/-! ### C5 -/

/-- Replacing one guid's record with a map satisfying the invariants
preserves the store-wide invariant. -/
theorem dbInv_update {db : DB} {ext : String} {m' : JsonMap}
    (hdb : dbInv db) (hinv : mapInv m') :
    dbInv (fun g => if g = ext then some (Rec.obj m') else db g) := by
  intro g mm hg
  dsimp only at hg
  by_cases hge : g = ext
  · rw [if_pos hge] at hg
    cases Rec.obj.inj (Option.some.inj hg)
    exact hinv
  · rw [if_neg hge] at hg
    exact hdb g mm hg

/-- Deleting one guid's record preserves the store-wide invariant. -/
theorem dbInv_erase {db : DB} (ext : String) (hdb : dbInv db) :
    dbInv (remove_from_db db ext) := by
  intro g mm hg
  unfold remove_from_db at hg
  by_cases hge : g = ext
  · rw [if_pos hge] at hg
    exact absurd hg (by simp)
  · rw [if_neg hge] at hg
    exact hdb g mm hg

/-- C5: starting from a store in which every record satisfies the three
quota invariants (total ≤ 102,400 bytes, every item strictly below 8,192
bytes, at most 512 items), every successful `set` or `remove` and every
`clear` leaves a store in which every record still satisfies them; and a
`set` whose final merged map serializes beyond 102,400 bytes fails with
`QuotaExceeded(TotalBytes)`. -/
theorem C5_quota_invariants (db : DB) (hdb : dbInv db) (ext : String)
    (v ks : Json) :
    ((∃ cs, (setOp db ext v).1 = Except.ok cs) → dbInv (setOp db ext v).2) ∧
    ((∃ cs, (removeOp db ext ks).1 = Except.ok cs) →
      dbInv (removeOp db ext ks).2) ∧
    dbInv (clearOp db ext).2 ∧
    (∀ m cur' ch, db ext = some (Rec.obj m) →
      setLoop m (objMap v) [] = Except.ok (cur', ch) →
      QUOTA_BYTES < jsonSize (Json.obj cur') →
      (setOp db ext v).1 = Except.error (Err.quota QuotaReason.TotalBytes)) := by
  have hsetCore : ∀ (cur : JsonMap), (∀ e ∈ cur, itemOkP e) →
      cur.length ≤ MAX_ITEMS →
      ∀ (dbres : Except Err StorageChanges × DB),
      (dbres = match setLoop cur (objMap v) [] with
        | Except.error e => (Except.error e, db)
        | Except.ok (cur', ch) =>
          match save_to_db db ext (Json.obj cur') with
          | (Except.error e, db') => (Except.error e, db')
          | (Except.ok _, db') => (Except.ok ch, db')) →
      (∃ cs, dbres.1 = Except.ok cs) → dbInv dbres.2 := by
    intro cur hitems hcount dbres hres hok
    obtain ⟨cs, hok⟩ := hok
    cases hl : setLoop cur (objMap v) [] with
    | error e =>
      rw [hl] at hres
      rw [hres] at hok
      exact absurd hok (by simp)
    | ok p =>
      obtain ⟨cur', ch⟩ := p
      rw [hl] at hres
      dsimp only at hres
      by_cases hq : QUOTA_BYTES < jsonSize (Json.obj cur')
      · rw [save_to_db_err db ext hq] at hres
        rw [hres] at hok
        exact absurd hok (by simp)
      · rw [save_to_db_ok db ext (Nat.not_lt.mp hq)] at hres
        rw [hres]
        obtain ⟨hitems', hcount'⟩ := setLoop_inv hitems hcount hl
        exact dbInv_update hdb ⟨Nat.not_lt.mp hq, hitems', hcount'⟩
  refine ⟨?_, ?_, ?_, ?_⟩
  · intro hok
    cases hrec : db ext with
    | none =>
      rw [setOp_none hrec v] at hok ⊢
      exact hsetCore [] (by simp) (by simp [MAX_ITEMS]) _ rfl hok
    | some rc =>
      cases rc with
      | malformed =>
        rw [setOp_malformed hrec v] at hok
        obtain ⟨cs, hok⟩ := hok
        exact absurd hok (by simp)
      | nonObject j =>
        rw [setOp_nonObject hrec v] at hok ⊢
        exact hsetCore [] (by simp) (by simp [MAX_ITEMS]) _ rfl hok
      | obj m =>
        rw [setOp_obj hrec v] at hok ⊢
        exact hsetCore m (hdb ext m hrec).2.1 (hdb ext m hrec).2.2 _ rfl hok
  · intro _
    cases hrec : db ext with
    | none =>
      rw [removeOp_none hrec ks]
      exact hdb
    | some rc =>
      cases rc with
      | malformed =>
        rw [removeOp_malformed hrec ks]
        exact hdb
      | nonObject j =>
        rw [removeOp_nonObject hrec ks]
        exact hdb
      | obj m =>
        rw [removeOp_obj hrec ks]
        cases hrl : removeLoop m (get_keys ks) [] with
        | mk ex' res =>
          dsimp only
          by_cases hres : res.isEmpty
          · rw [if_pos hres]
            exact hdb
          · rw [if_neg hres]
            by_cases hq : QUOTA_BYTES < jsonSize (Json.obj ex')
            · rw [save_to_db_err db ext hq]
              exact hdb
            · rw [save_to_db_ok db ext (Nat.not_lt.mp hq)]
              refine dbInv_update hdb ⟨Nat.not_lt.mp hq, ?_, ?_⟩
              · intro e he
                have hsub := removeLoop_subset (get_keys ks) m [] e
                rw [hrl] at hsub
                exact (hdb ext m hrec).2.1 e (hsub he)
              · have hlen := removeLoop_length_le (get_keys ks) m []
                rw [hrl] at hlen
                exact hlen.trans (hdb ext m hrec).2.2
  · cases hrec : db ext with
    | none =>
      rw [clearOp_none hrec]
      exact hdb
    | some rc =>
      cases rc with
      | malformed =>
        rw [clearOp_malformed hrec]
        exact hdb
      | nonObject j =>
        rw [clearOp_nonObject hrec]
        exact hdb
      | obj m =>
        rw [clearOp_obj hrec]
        exact dbInv_erase ext hdb
  · intro m cur' ch hrec hl hq
    rw [setOp_obj hrec v, hl]
    dsimp only
    rw [save_to_db_err db ext hq]

/-- C5 witness: the concrete store `dbOne` satisfies the invariants; after
`clear`, and after a successful `set` of a fresh small key, every record
still satisfies them. -/
theorem C5_witness :
    dbInv (clearOp dbOne "ext-a").2 ∧
    dbInv (setOp dbOne "ext-a" (Json.obj [("z", Json.num 1)])).2 := by
  have hdb : dbInv dbOne := by
    intro g mm h
    unfold dbOne at h
    by_cases hg : g = "ext-a"
    · rw [if_pos hg] at h
      cases Rec.obj.inj (Option.some.inj h)
      exact ⟨by decide, by decide, by decide⟩
    · rw [if_neg hg] at h
      exact absurd h (by simp)
  have h := C5_quota_invariants dbOne hdb "ext-a"
    (Json.obj [("z", Json.num 1)]) Json.null
  exact ⟨h.2.2.1, h.1 ⟨[("z", ⟨none, some (Json.num 1)⟩)], rfl⟩⟩

/-! ### C6 -/

/-- The `get` loop only ever writes keys that occur in the remaining
spec: a key not selected keeps its accumulator value. -/
theorem getLoop_lookup_of_not_mem (pairs : List (String × Option Json)) :
    ∀ (existing acc : JsonMap) (key : String),
    (∀ d, (key, d) ∉ pairs) →
    jlookup (getLoop existing pairs acc) key = jlookup acc key := by
  induction pairs with
  | nil =>
    intro existing acc key _
    rfl
  | cons p rest ih =>
    intro existing acc key hnot
    obtain ⟨k₀, d₀⟩ := p
    have hk : key ≠ k₀ := by
      intro he
      exact hnot d₀ (he ▸ List.mem_cons_self _ _)
    have hrest : ∀ d, (key, d) ∉ rest :=
      fun d hd => hnot d (List.mem_cons_of_mem _ hd)
    rw [getLoop.eq_def]
    dsimp only
    cases hl : jlookup existing k₀ with
    | some v =>
      rw [ih _ _ _ hrest, jlookup_jinsert_ne _ _ hk]
    | none =>
      cases d₀ with
      | some dv =>
        rw [ih _ _ _ hrest, jlookup_jinsert_ne _ _ hk]
      | none =>
        rw [ih _ _ _ hrest]

/-- The per-key contract of the `get` loop: a selected key gets its stored
value if present, else its supplied default if any, else is omitted. -/
theorem getLoop_spec (pairs : List (String × Option Json)) :
    ∀ (existing acc : JsonMap) (key : String) (d : Option Json),
    (pairs.map Prod.fst).Nodup → (key, d) ∈ pairs →
    jlookup acc key = none →
    (∀ v, jlookup existing key = some v →
      jlookup (getLoop existing pairs acc) key = some v) ∧
    (jlookup existing key = none →
      (∀ dv, d = some dv →
        jlookup (getLoop existing pairs acc) key = some dv) ∧
      (d = none → jlookup (getLoop existing pairs acc) key = none)) := by
  induction pairs with
  | nil =>
    intro existing acc key d _ hmem _
    exact absurd hmem (by simp)
  | cons p rest ih =>
    intro existing acc key d hnod hmem hacc
    obtain ⟨k₀, d₀⟩ := p
    simp only [List.map_cons, List.nodup_cons] at hnod
    have hrestnot : ∀ dd, (k₀, dd) ∉ rest := by
      intro dd hdd
      exact hnod.1 (List.mem_map.mpr ⟨(k₀, dd), hdd, rfl⟩)
    rcases List.mem_cons.mp hmem with heq | hmem'
    · obtain ⟨rfl, rfl⟩ := Prod.mk.injEq .. |>.mp heq
      rw [getLoop.eq_def]
      dsimp only
      cases hl : jlookup existing key with
      | some v =>
        constructor
        · intro v' hv'
          injection hv' with hv'
          subst hv'
          dsimp only
          rw [getLoop_lookup_of_not_mem rest _ _ _ hrestnot,
            jlookup_jinsert_self]
        · intro h₀
          exact absurd h₀ (by simp)
      | none =>
        constructor
        · intro v' hv'
          exact absurd hv' (by simp)
        · intro _
          cases d with
          | some dv₀ =>
            constructor
            · intro dv hdv
              injection hdv with hdv
              subst hdv
              dsimp only
              rw [getLoop_lookup_of_not_mem rest _ _ _ hrestnot,
                jlookup_jinsert_self]
            · intro hnone
              exact absurd hnone (by simp)
          | none =>
            constructor
            · intro dv hdv
              exact absurd hdv (by simp)
            · intro _
              dsimp only
              rw [getLoop_lookup_of_not_mem rest _ _ _ hrestnot]
              exact hacc
    · have hkne : key ≠ k₀ := by
        intro he
        subst he
        exact hnod.1 (List.mem_map.mpr ⟨(key, d), hmem', rfl⟩)
      rw [getLoop.eq_def]
      dsimp only
      cases hl : jlookup existing k₀ with
      | some v =>
        have hnext := ih (jerase existing k₀) (jinsert acc k₀ v) key d
          hnod.2 hmem'
          (by rw [jlookup_jinsert_ne _ _ hkne]; exact hacc)
        constructor
        · intro v' hv'
          exact hnext.1 v' (by rw [jlookup_jerase_ne _ hkne]; exact hv')
        · intro h₀
          exact hnext.2 (by rw [jlookup_jerase_ne _ hkne]; exact h₀)
      | none =>
        cases d₀ with
        | some dv₀ =>
          exact ih existing (jinsert acc k₀ dv₀) key d hnod.2 hmem'
            (by rw [jlookup_jinsert_ne _ _ hkne]; exact hacc)
        | none =>
          exact ih existing acc key d hnod.2 hmem' hacc

/-- C6: for a stored object record and a non-null key spec with distinct
selected keys, `get` returns the per-key loop's map, in which every
selected key is mapped to its stored value when present (any default is
ignored), to its supplied default when absent (even an explicit null
default), and is omitted when absent with no default. -/
theorem C6_get_defaults (db : DB) (ext : String) (m : JsonMap) (ks : Json)
    (hrec : db ext = some (Rec.obj m)) (hns : isNull ks = false)
    (hnod : ((get_keys ks).map Prod.fst).Nodup) :
    getOp db ext ks = Except.ok (Json.obj (getLoop m (get_keys ks) [])) ∧
    ∀ key d, (key, d) ∈ get_keys ks →
      (∀ v, jlookup m key = some v →
        jlookup (getLoop m (get_keys ks) []) key = some v) ∧
      (jlookup m key = none →
        (∀ dv, d = some dv →
          jlookup (getLoop m (get_keys ks) []) key = some dv) ∧
        (d = none → jlookup (getLoop m (get_keys ks) []) key = none)) := by
  refine ⟨getOp_obj_notNull hrec hns, ?_⟩
  intro key d hmem
  exact getLoop_spec (get_keys ks) m [] key d hnod hmem rfl

/-- C6 witness: on the concrete store `dbOne` (holding `{"k": "v"}`), the
object spec `{"k": null, "q": null}` yields the stored `"v"` for the
present key `"k"` (its null default ignored) and `null` for the absent
key `"q"`; the string spec `"zz"` (no default) leaves the absent key
`"zz"` omitted. -/
theorem C6_witness :
    jlookup (getLoop mOne
      (get_keys (Json.obj [("k", Json.null), ("q", Json.null)])) []) "k"
      = some (Json.str "v") ∧
    jlookup (getLoop mOne
      (get_keys (Json.obj [("k", Json.null), ("q", Json.null)])) []) "q"
      = some Json.null ∧
    jlookup (getLoop mOne (get_keys (Json.str "zz")) []) "zz" = none := by
  have h₁ := C6_get_defaults dbOne "ext-a" mOne
    (Json.obj [("k", Json.null), ("q", Json.null)]) rfl rfl (by decide)
  have h₂ := C6_get_defaults dbOne "ext-a" mOne (Json.str "zz") rfl rfl
    (by decide)
  refine ⟨?_, ?_, ?_⟩
  · exact (h₁.2 "k" (some Json.null) (List.mem_cons_self _ _)).1
      (Json.str "v") rfl
  · exact ((h₁.2 "q" (some Json.null)
      (List.mem_cons_of_mem _ (List.mem_cons_self _ _))).2 rfl).1
      Json.null rfl
  · exact ((h₂.2 "zz" none (List.mem_cons_self _ _)).2 rfl).2 rfl
